import Mathlib

/-!
Verification development for the orbs-network/scribe logging core.

The Go sources are embedded shallowly: each Go method becomes a Lean
function over an explicit state value; machine time is an `Int` count of
nanoseconds (Go `time.Time.UnixNano`); fallible Go code (code that can
panic) returns `Option`, with `none` standing for a panic escaping the
function.  Concurrency is serialised: each operation is modelled as one
atomic state transition, which matches the lock discipline of the source
(every mutation happens under the corresponding mutex).
-/

namespace Scribe

/-! ## Truncating file writer (`truncating_file_writer.go`)

The wrapped `*os.File` is modelled as its byte content plus the current
seek position.  `Write` overwrites at the position (the file is a plain
file handle, not opened in append mode), which is why the source follows
`f.Truncate(0)` with `f.Seek(0, 0)`. -/

structure TruncatingFileWriter where
  content : List Char
  pos : Nat
  interval : Int
  lastTruncated : Int

/-- `shouldTruncate` from the source: interval enabled and the window
has elapsed. -/
def shouldTruncate (now lastTruncated interval : Int) : Bool :=
  interval > 0 && now - lastTruncated ≥ interval

/-- `truncatingFileWriter.Truncate`: clear the file and seek to the
start.  `lastTruncated` is not touched. -/
def TruncatingFileWriter.Truncate (w : TruncatingFileWriter) : TruncatingFileWriter :=
  { w with content := [], pos := 0 }

/-- `truncatingFileWriter.autoTruncate`: re-check the truncation
condition (under the lock in the source), then truncate and record the
truncation time. -/
def TruncatingFileWriter.autoTruncate (w : TruncatingFileWriter) (now : Int) :
    TruncatingFileWriter :=
  if shouldTruncate now w.lastTruncated w.interval then
    { w.Truncate with lastTruncated := now }
  else
    w

/-- The raw file write: overwrite `p.length` bytes at the current
position and advance it. -/
def fileWrite (content : List Char) (pos : Nat) (p : List Char) : List Char × Nat :=
  (content.take pos ++ p ++ content.drop (pos + p.length), pos + p.length)

/-- `truncatingFileWriter.Write`: fast-path check of the truncation
condition, auto-truncate if due, then perform the requested write. -/
def TruncatingFileWriter.Write (w : TruncatingFileWriter) (now : Int) (p : List Char) :
    TruncatingFileWriter :=
  let w' :=
    if w.interval > 0 && shouldTruncate now w.lastTruncated w.interval then
      w.autoTruncate now
    else
      w
  let (c, n) := fileWrite w'.content w'.pos p
  { w' with content := c, pos := n }

/-- `NewTruncatingFileWriter`: zero interval when none is supplied;
`lastTruncated` starts at creation time. -/
def NewTruncatingFileWriter (content : List Char) (pos : Nat) (intervals : List Int)
    (now : Int) : TruncatingFileWriter :=
  { content := content, pos := pos,
    interval := intervals.headD 0, lastTruncated := now }

/-! ## Fields (`field.go`)

`Field` is the tagged union of value kinds.  The Go struct keeps every
payload slot in one record; the float payload is omitted from the
embedding (floating point is outside its scope, and no verified claim
touches it).  `nested` models the `Nested AggregateField` interface slot:
`none` stands for a nil interface value, whose `NestedFields()` call
panics. -/

inductive FieldType where
  | NoType | ErrorType | NodeType | ServiceType | StringType | IntType
  | UintType | BytesType | FloatType | FunctionType | SourceType
  | StringArrayType | TimeType | AggregateType
deriving DecidableEq, Repr

inductive Field where
  | mk (key : String) (type : FieldType) (stringVal : String)
       (stringArray : List String) (intVal : Int) (uintVal : Nat)
       (bytes : List Nat) (errorVal : Option String)
       (nested : Option (List Field))
deriving Repr

def Field.key : Field → String
  | .mk k _ _ _ _ _ _ _ _ => k

def Field.type : Field → FieldType
  | .mk _ t _ _ _ _ _ _ _ => t

def Field.stringVal : Field → String
  | .mk _ _ s _ _ _ _ _ _ => s

def Field.stringArray : Field → List String
  | .mk _ _ _ a _ _ _ _ _ => a

def Field.intVal : Field → Int
  | .mk _ _ _ _ i _ _ _ _ => i

def Field.uintVal : Field → Nat
  | .mk _ _ _ _ _ u _ _ _ => u

def Field.bytes : Field → List Nat
  | .mk _ _ _ _ _ _ b _ _ => b

def Field.errorVal : Field → Option String
  | .mk _ _ _ _ _ _ _ e _ => e

def Field.nested : Field → Option (List Field)
  | .mk _ _ _ _ _ _ _ _ n => n

/-- Smart constructors from the source (`log.String`, `log.Int`, …);
renamed to lower case because `String`/`Int` would collide with the Lean
types of the same names. -/
def Field.string (key value : String) : Field :=
  .mk key .StringType value [] 0 0 [] none none

def Field.int (key : String) (value : Int) : Field :=
  .mk key .IntType "" [] value 0 [] none none

def Field.uint (key : String) (value : Nat) : Field :=
  .mk key .UintType "" [] 0 value [] none none

def Field.function (value : String) : Field :=
  .mk "function" .FunctionType value [] 0 0 [] none none

def Field.source (value : String) : Field :=
  .mk "source" .SourceType value [] 0 0 [] none none

def Field.node (value : String) : Field :=
  .mk "node" .NodeType value [] 0 0 [] none none

def Field.service (value : String) : Field :=
  .mk "service" .ServiceType value [] 0 0 [] none none

/-- `log.Error(value)`: key `"error"`, carries the error message (a Go
`error` is observable only through `Error() string` here). -/
def Field.errorField (message : String) : Field :=
  .mk "error" .ErrorType "" [] 0 0 [] (some message) none

/-- `log.Aggregate(name, fields...)`. -/
def Field.aggregate (name : String) (fields : List Field) : Field :=
  .mk name .AggregateType "" [] 0 0 [] none (some fields)

/-- The dynamic value returned by Go's `Field.Value() interface{}`. -/
inductive GoValue where
  | str (s : String)
  | strArr (a : List String)
  | int (i : Int)
  | uint (u : Nat)
  | time (unixNano : Int)
  | fields (fs : List Field)
  | null
deriving Repr

/-- Lowercase hex of one byte, as `hex.EncodeToString` renders it. -/
def hexByte (b : Nat) : String :=
  let digit := fun (n : Nat) =>
    if n < 10 then Char.ofNat (48 + n) else Char.ofNat (87 + n)
  String.mk [digit (b / 16 % 16), digit (b % 16)]

def hexEncode (bs : List Nat) : String :=
  String.join (bs.map hexByte)

/-- `Field.Value()`.  `none` models the panic raised when an
aggregate-typed field holds a nil `Nested` interface.  The float case is
outside the embedding and is mapped to `GoValue.null`. -/
def Field.value : Field → Option GoValue
  | .mk _ t sv sa iv uv b ev n =>
    match t with
    | .NodeType => some (.str sv)
    | .ServiceType => some (.str sv)
    | .FunctionType => some (.str sv)
    | .SourceType => some (.str sv)
    | .StringType => some (.str sv)
    | .IntType => some (.int iv)
    | .TimeType => some (.time iv)
    | .UintType => some (.uint uv)
    | .BytesType => some (.str (hexEncode b))
    | .ErrorType => some (.str (ev.getD "<nil>"))
    | .StringArrayType => some (.strArr sa)
    | .AggregateType => (n.map .fields)
    | .NoType => some .null
    | .FloatType => some .null

/-- `Field.IsNested()`. -/
def Field.isNested (f : Field) : Bool :=
  f.type = FieldType.AggregateType

/-- Nominal `%v` rendering of a dynamic value (the exact text of the
cases that no claim depends on is immaterial: allow patterns are
abstract predicates over the rendered string). -/
def GoValue.repr : GoValue → String
  | .str s => s
  | .strArr a => "[" ++ String.intercalate " " a ++ "]"
  | .int i => toString i
  | .uint u => toString u
  | .time t => toString t
  | .fields _ => "<fields>"
  | .null => "<nil>"

/-- `Field.String()`: `"Field: key=%s, value=%v"`.  Total rendering: a
field whose `Value()` would panic is given a nominal placeholder (no
claim exercises that corner). -/
def Field.fString (f : Field) : String :=
  "Field: key=" ++ f.key ++ ", value=" ++ (match f.value with
    | some v => v.repr
    | none => "<nil>")

/-- `flattenParams` (`logger.go`): recursively replace every
aggregate-typed field by its nested fields; `none` models the fatal
panic when an aggregate field's nested payload is not a field
sequence (in the source, a nil `Nested` interface). -/
def flattenParams : List Field → Option (List Field)
  | [] => some []
  | Field.mk _ .AggregateType _ _ _ _ _ _ (some nestedFields) :: rest =>
    match flattenParams nestedFields with
    | none => none
    | some flatNested =>
      match flattenParams rest with
      | none => none
      | some flatRest => some (flatNested ++ flatRest)
  | Field.mk _ .AggregateType _ _ _ _ _ _ none :: _ => none
  | f :: rest =>
    match flattenParams rest with
    | none => none
    | some flatRest => some (f :: flatRest)

/-! ## Filters

The `Filter` interface is a pure predicate over (level, message,
fields).  Its implementations live outside the analysed sources. -/

abbrev LFilter := String → String → List Field → Bool

/-- Modelled from the spec: the `and` filter combinator used by the
sinks (`filters and` in `bulk_output.go`); the spec states a record
passes only if every filter in the chain allows it (conjunction). -/
def andAllows (filters : List LFilter) (level message : String)
    (fields : List Field) : Bool :=
  filters.all fun fl => fl level message fields

/-! ## Delivery orchestrator (`logger.go`)

A sink is observed through the errors it reports to the `onError`
callback and the panic it may raise; a log call is observed through the
list of deliveries (`LogEvent`) it makes to the configured sinks.
`getCaller` is runtime introspection and is threaded in as the already
resolved `function`/`source` strings.  The `logLoggingErrors` flag is
represented by fuel: fuel 1 is a normal `Log` call, fuel 0 is the
re-entrant `logLoggingError` call whose own delivery errors are
dropped. -/

/-- The object a Go `panic` carries, as `appendTo`'s recover switches on
it: an `error` value, a string, or anything else. -/
inductive PanicObj where
  | errObj (message : String)
  | strObj (s : String)
  | otherObj
deriving Repr

/-- The error the recover block of `appendTo` builds from a recovered
panic object. -/
def panicToErrMsg : PanicObj → String
  | .errObj m => m
  | .strObj s => s
  | .otherObj => "unknown error object type"

/-- Nominal `%v` rendering of a panic object for `fmt.Println`. -/
def PanicObj.repr : PanicObj → String
  | .errObj m => m
  | .strObj s => s
  | .otherObj => "<value>"

/-- A sink's observable behaviour on one `Append` call: the error
messages it passes to `onError`, and the panic it raises, if any. -/
structure SinkSpec where
  errs : String → String → List Field → List String
  pan : String → String → List Field → Option PanicObj

structure BasicLogger where
  outputs : List SinkSpec
  tags : List Field
  filters : List LFilter

/-- One delivery of a record to a sink.  `reportErrors` is the
`logLoggingErrors` flag of the log call that made the delivery. -/
structure LogEvent where
  reportErrors : Bool
  level : String
  message : String
  params : List Field
deriving Repr

/-- The errors `onError` receives during one sink invocation: the
errors the sink itself reports, then the recovered panic converted to
an error by `appendTo`'s deferred recover block. -/
def SinkSpec.errList (out : SinkSpec) (level message : String)
    (fields : List Field) : List String :=
  out.errs level message fields ++
    (match out.pan level message fields with
     | some p => [panicToErrMsg p]
     | none => [])

/-- `basicLogger.appendTo`: invoke the sink, route every reported error
and the recovered panic (converted to an error) through `onError`,
which re-enters the logger only when `logLoggingErrors` is set.  The
result is `none` only when a re-entrant log call itself panics. -/
def BasicLogger.appendTo (out : SinkSpec) (lle : Bool)
    (logLoggingErrorFn : String → Option (List LogEvent))
    (level message : String) (enriched : List Field) : Option (List LogEvent) :=
  let onError : String → Option (List LogEvent) := fun e =>
    if lle then logLoggingErrorFn e else some []
  match (out.errList level message enriched).mapM onError with
  | none => none
  | some groups => some (LogEvent.mk lle level message enriched :: groups.flatten)

/-- The body of `basicLogger.log`: enrich with caller fields and tags,
flatten aggregates (a `none` is the flattening panic reaching the
caller), run the logger-level filter chain, then deliver to every
output.  `lle` is the `logLoggingErrors` flag and `llef` the
`logLoggingError` re-entry behaviour. -/
def BasicLogger.logOnce (b : BasicLogger) (function source : String)
    (llef : String → Option (List LogEvent)) (lle : Bool)
    (level message : String) (params : List Field) : Option (List LogEvent) :=
  match flattenParams (Field.function function :: Field.source source ::
      (b.tags ++ params)) with
  | none => none
  | some enriched =>
    if b.filters.all (fun fl => fl level message enriched) then
      match b.outputs.mapM (fun out =>
          BasicLogger.appendTo out lle llef level message enriched) with
      | none => none
      | some groups => some groups.flatten
    else some []

/-- `basicLogger.log` with the `logLoggingErrors` flag encoded as fuel:
fuel 0 is the re-entrant `logLoggingError` call (its delivery errors
are dropped), fuel 1 a public log call whose delivery errors re-enter
the logger once. -/
def BasicLogger.logAux (b : BasicLogger) (function source : String) :
    Nat → String → String → List Field → Option (List LogEvent)
  | 0, level, message, params =>
    BasicLogger.logOnce b function source (fun _ => some []) false
      level message params
  | fuel + 1, level, message, params =>
    BasicLogger.logOnce b function source
      (fun err => BasicLogger.logAux b function source fuel "error"
        ("failed to append log to output: " ++ err) [])
      true level message params

/-- `basicLogger.Log`: a public log call runs with error reporting
enabled (`logLoggingErrors = true`, fuel 1). -/
def BasicLogger.Log (b : BasicLogger) (function source level message : String)
    (params : List Field) : Option (List LogEvent) :=
  b.logAux function source 1 level message params

/-! ## Bulk/batching sink (`bulk_output.go`)

The underlying writer is observed through the payload of each write
call issued to it; the asynchronous flush task is serialised at the
point of hand-off (the batch detach happens under the lock in the
source, before the task starts). -/

structure Row where
  level : String
  timestamp : Int
  message : String
  fields : List Field

abbrev Formatter := Int → String → String → List Field → List Char

structure BulkOutput where
  formatter : Formatter
  bulkSize : Int
  logs : List Row
  filters : List LFilter

/-- `bulkOutput.SetFilters`. -/
def BulkOutput.SetFilters (out : BulkOutput) (filters : List LFilter) : BulkOutput :=
  { out with filters := filters }

/-- `bulkOutput.flushIfNeeded`: when the pending batch has reached the
threshold, detach it (reset to empty) and issue one write whose payload
is `FormatRow(row) ++ "\n"` for each row, in order. -/
def BulkOutput.flushIfNeeded (out : BulkOutput) : BulkOutput × Option (List Char) :=
  if (out.logs.length : Int) ≥ out.bulkSize then
    ({ out with logs := [] },
     some ((out.logs.map fun r =>
        out.formatter r.timestamp r.level r.message r.fields ++ ['\n']).flatten))
  else
    (out, none)

/-- `bulkOutput.Append`: drop the record if the sink-local filter chain
denies it, otherwise append it to the pending batch and run the flush
check. -/
def BulkOutput.Append (out : BulkOutput) (now : Int) (level message : String)
    (fields : List Field) : BulkOutput × Option (List Char) :=
  if !(andAllows out.filters level message fields) then
    (out, none)
  else
    BulkOutput.flushIfNeeded
      { out with logs := out.logs ++ [⟨level, now, message, fields⟩] }

/-- `NewBulkOutput`: construction fails fatally when the threshold
exceeds 1000; otherwise the sink starts with an empty pending batch and
no filters. -/
def NewBulkOutput (formatter : Formatter) (bulkSize : Int) : Option BulkOutput :=
  if bulkSize > 1000 then
    none
  else
    some { formatter := formatter, bulkSize := bulkSize, logs := [], filters := [] }

/-- Harness: append a sequence of records, collecting every write the
sink issues to the underlying writer. -/
def BulkOutput.appendAll (out : BulkOutput) :
    List Row → BulkOutput × List (List Char)
  | [] => (out, [])
  | r :: rest =>
    let (out', w) := out.Append r.timestamp r.level r.message r.fields
    let (out'', ws) := BulkOutput.appendAll out' rest
    (out'', w.toList ++ ws)

/-- Splitting a character list on a separator, as the claim's
"splitting the flushed payload on newline". -/
def splitOnChar (c : Char) : List Char → List (List Char)
  | [] => [[]]
  | x :: xs =>
    if x = c then
      [] :: splitOnChar c xs
    else
      match splitOnChar c xs with
      | [] => [[x]]
      | s :: ss => (x :: s) :: ss

/-! ## Test-harness sink (`test_output.go`, `t.go`)

The backing `TLog` test-report interface is observed through the calls
made to it (`TBEvent`); its own misbehaviour is specified by which calls
panic.  `fmt.Println` fallback lines are `TBEvent.println` events. -/

def TEST_FAILED_ERROR : String :=
  "Test failed due to unexpected errors being logged. If the error above is expected, please add it to the list of allowed errors by invoking TestOutput.AllowErrorsMatching"

def POST_TERMINATED_ERROR : String :=
  "*** Logged error after TestOutput.TestTerminated:"

def TEST_RUNNER_PANIC_ERROR : String :=
  "*** Test runner panic while trying to fail test (try using TestOutput.TestTerminated):"

/-- A compiled allow pattern: Go's `*regexp.Regexp` is observable here
only through `MatchString`. -/
abbrev Pat := String → Bool

/-- The backing test-report interface: its display name and which of
its failure-recording calls panic. -/
structure TLogBehavior where
  name : String
  errorPan : String → Option PanicObj
  failPan : Option PanicObj

/-- A call made to the test-report backend, or a fallback line printed
to standard output. -/
inductive TBEvent where
  | logLine (line : String)
  | errorLine (line : String)
  | failCall
  | println (tag : String) (name : String) (pan : Option PanicObj) (line : String)
deriving Repr

structure TestOutput where
  formatter : Int → String → String → List Field → String
  tb : TLogBehavior
  loggingDisabled : Bool
  allowedErrors : List String
  allowedErrorPatterns : List (Option Pat)
  hasErrors : Bool
  testTerminated : Bool

/-- `NewTestOutput`. -/
def NewTestOutput (tb : TLogBehavior)
    (formatter : Int → String → String → List Field → String) : TestOutput :=
  { formatter := formatter, tb := tb, loggingDisabled := false,
    allowedErrors := [], allowedErrorPatterns := [],
    hasErrors := false, testTerminated := false }

/-- The Boolean matched by one valid allow pattern against a record:
the message text, or any field keyed `"error"` rendered as a string. -/
def patMatches (r : Pat) (message : String) (fields : List Field) : Bool :=
  r message || fields.any fun f => f.key == "error" && r f.fString

/-- The pattern loop of `TestOutput.allowed`: per pattern, first the
message, then every field keyed `"error"` rendered via `Field.String()`.
A `none` pattern is a nil `*regexp.Regexp`; invoking it panics
(result `none`). -/
def allowedLoop : List (Option Pat) → String → List Field → Option Bool
  | [], _, _ => some false
  | none :: _, _, _ => none
  | some r :: rest, message, fields =>
    if r message then
      some true
    else if fields.any (fun f => f.key == "error" && r f.fString) then
      some true
    else
      allowedLoop rest message fields

/-- `TestOutput.allowed`. -/
def TestOutput.allowed (o : TestOutput) (message : String) (fields : List Field) :
    Option Bool :=
  allowedLoop o.allowedErrorPatterns message fields

/-- `TestOutput.AllowErrorsMatching`: `regexp.Compile`'s result is the
`compiled` argument; its error is discarded and the (possibly nil)
compiled pattern is appended. -/
def TestOutput.AllowErrorsMatching (o : TestOutput) (pattern : String)
    (compiled : Except String Pat) : TestOutput :=
  { o with allowedErrors := o.allowedErrors ++ [pattern],
           allowedErrorPatterns := o.allowedErrorPatterns ++ [compiled.toOption] }

/-- `TestOutput.HasErrors`. -/
def TestOutput.HasErrors (o : TestOutput) : Bool :=
  o.hasErrors

/-- `TestOutput.TestTerminated` (the one-way setter). -/
def TestOutput.TestTerminated (o : TestOutput) : TestOutput :=
  { o with testTerminated := true }

/-- `TestOutput.recordError`: set `hasErrors`, then report the failure;
any panic of the backend is recovered and replaced by a
`TEST_RUNNER_PANIC_ERROR` fallback line, so the function is total. -/
def TestOutput.recordError (o : TestOutput) (line : String) :
    TestOutput × List TBEvent :=
  let o' := { o with hasErrors := true }
  if o.testTerminated = false then
    match o.tb.errorPan line with
    | some p =>
      (o', [.errorLine line,
            .println TEST_RUNNER_PANIC_ERROR o.tb.name (some p) line])
    | none =>
      match o.tb.errorPan TEST_FAILED_ERROR with
      | some p =>
        (o', [.errorLine line, .errorLine TEST_FAILED_ERROR,
              .println TEST_RUNNER_PANIC_ERROR o.tb.name (some p) line])
      | none =>
        (o', [.errorLine line, .errorLine TEST_FAILED_ERROR])
  else
    match o.tb.failPan with
    | some p =>
      (o', [.failCall,
            .println TEST_RUNNER_PANIC_ERROR o.tb.name (some p) line])
    | none =>
      (o', [.failCall, .println POST_TERMINATED_ERROR o.tb.name none line])

/-- `TestOutput.Append` (file `t.go`): drop everything once logging is
disabled; render the line; a disallowed error-level record disables
logging and records the failure, anything else is forwarded through the
backend's normal `Log`.  `none` is the panic of matching against a nil
compiled pattern. -/
def TestOutput.Append (o : TestOutput) (now : Int) (level message : String)
    (fields : List Field) : Option (TestOutput × List TBEvent) :=
  if o.loggingDisabled then
    some (o, [])
  else
    let line := o.formatter now level message fields
    if level == "error" then
      match o.allowed message fields with
      | none => none
      | some false =>
        some (TestOutput.recordError { o with loggingDisabled := true } line)
      | some true => some (o, [.logLine line])
    else
      some (o, [.logLine line])

end Scribe

namespace Scribe

/-- Claim C2: with `interval > 0`, a `Write` at `now` with
`now - lastTruncated ≥ interval` first truncates the file to empty,
seeks to the start and sets `lastTruncated := now`, and only then writes
(the bytes land in the freshly truncated file); with
`now - lastTruncated < interval` the write appends after the existing
content and `lastTruncated` is unchanged. -/
theorem write_truncates_iff_window_elapsed (w : TruncatingFileWriter) (now : Int)
    (p : List Char) (hpos : w.pos = w.content.length) (hint : 0 < w.interval) :
    (w.interval ≤ now - w.lastTruncated →
      w.Write now p = { content := p, pos := p.length,
                        interval := w.interval, lastTruncated := now }) ∧
    (now - w.lastTruncated < w.interval →
      w.Write now p = { content := w.content ++ p, pos := w.content.length + p.length,
                        interval := w.interval, lastTruncated := w.lastTruncated }) := by
  constructor
  · intro h
    have hs : shouldTruncate now w.lastTruncated w.interval = true := by
      simp [shouldTruncate]
      omega
    simp [TruncatingFileWriter.Write, TruncatingFileWriter.autoTruncate,
      TruncatingFileWriter.Truncate, fileWrite, hs, hint]
  · intro h
    have hs : shouldTruncate now w.lastTruncated w.interval = false := by
      simp [shouldTruncate]
      omega
    simp [TruncatingFileWriter.Write, fileWrite, hs, hpos,
      List.drop_eq_nil_of_le (by omega : w.content.length ≤ w.content.length + p.length)]

/-- Witness for `write_truncates_iff_window_elapsed` at a concrete
writer, elapsed and non-elapsed times. -/
theorem write_truncates_iff_window_elapsed_witness :
    (TruncatingFileWriter.Write ⟨['a'], 1, 10, 100⟩ 110 ['b']
      = { content := ['b'], pos := 1, interval := 10, lastTruncated := 110 }) ∧
    (TruncatingFileWriter.Write ⟨['a'], 1, 10, 100⟩ 105 ['b']
      = { content := ['a', 'b'], pos := 2, interval := 10, lastTruncated := 100 }) :=
  ⟨(write_truncates_iff_window_elapsed ⟨['a'], 1, 10, 100⟩ 110 ['b'] rfl (by decide)).1
      (by decide),
   (write_truncates_iff_window_elapsed ⟨['a'], 1, 10, 100⟩ 105 ['b'] rfl (by decide)).2
      (by decide)⟩

/-- Claim C9: a manual `Truncate()` clears the content and resets the
position but leaves `lastTruncated` unchanged, so it does not change the
outcome of the next automatic-truncation check. -/
theorem manual_truncate_keeps_timer (w : TruncatingFileWriter) (now : Int) :
    w.Truncate.lastTruncated = w.lastTruncated ∧
    w.Truncate.content = [] ∧ w.Truncate.pos = 0 ∧
    shouldTruncate now w.Truncate.lastTruncated w.Truncate.interval
      = shouldTruncate now w.lastTruncated w.interval :=
  ⟨rfl, rfl, rfl, rfl⟩

/-- Claim C7: `NewBulkOutput` fails fatally exactly when the threshold
exceeds 1000; any threshold of at most 1000 yields a sink with an empty
pending buffer. -/
theorem newBulkOutput_threshold (formatter : Formatter) (bulkSize : Int) :
    (1000 < bulkSize → NewBulkOutput formatter bulkSize = none) ∧
    (bulkSize ≤ 1000 →
      NewBulkOutput formatter bulkSize
        = some { formatter := formatter, bulkSize := bulkSize,
                 logs := [], filters := [] }) := by
  refine ⟨fun h => ?_, fun h => ?_⟩
  · simp [NewBulkOutput, h]
  · have h' : ¬(1000 < bulkSize) := by omega
    simp [NewBulkOutput, h']

/-- Witness for `newBulkOutput_threshold` at thresholds 1001 and
1000. -/
theorem newBulkOutput_threshold_witness :
    NewBulkOutput (fun _ _ m _ => m.data) 1001 = none ∧
    NewBulkOutput (fun _ _ m _ => m.data) 1000
      = some { formatter := fun _ _ m _ => m.data, bulkSize := 1000,
               logs := [], filters := [] } :=
  ⟨(newBulkOutput_threshold (fun _ _ m _ => m.data) 1001).1 (by norm_num),
   (newBulkOutput_threshold (fun _ _ m _ => m.data) 1000).2 (by norm_num)⟩

/-- Splitting after one full separated segment. -/
theorem splitOnChar_append (c : Char) (l rest : List Char) (hl : c ∉ l) :
    splitOnChar c (l ++ c :: rest) = l :: splitOnChar c rest := by
  induction l with
  | nil => simp [splitOnChar]
  | cons x xs ih =>
    have hx : x ≠ c := fun h => hl (by simp [h])
    have hxs : c ∉ xs := fun h => hl (by simp [h])
    have ih' := ih hxs
    simp only [List.cons_append, splitOnChar, if_neg hx, List.append_eq] at ih' ⊢
    rw [ih']

/-- Splitting the concatenation of newline-terminated, newline-free
lines yields the lines followed by one empty trailing segment. -/
theorem splitOnChar_flatten_lines (c : Char) (ls : List (List Char))
    (h : ∀ l ∈ ls, c ∉ l) :
    splitOnChar c ((ls.map (· ++ [c])).flatten) = ls ++ [[]] := by
  induction ls with
  | nil => simp [splitOnChar]
  | cons l rest ih =>
    have hassoc : (l ++ [c]) ++ ((rest.map (· ++ [c])).flatten)
        = l ++ (c :: (rest.map (· ++ [c])).flatten) := by simp
    rw [List.map_cons, List.flatten_cons, hassoc,
      splitOnChar_append c l _ (h l (by simp)),
      ih (fun l' hl' => h l' (by simp [hl']))]
    rfl

/-- A record passing the filter chain is appended to the batch before
the flush check runs. -/
theorem BulkOutput.Append_eq (out : BulkOutput) (r : Row)
    (hallow : andAllows out.filters r.level r.message r.fields = true) :
    out.Append r.timestamp r.level r.message r.fields
      = BulkOutput.flushIfNeeded { out with logs := out.logs ++ [r] } := by
  simp only [BulkOutput.Append, hallow, Bool.not_true, Bool.false_eq_true, if_false]

/-- The flush check fires when the batch has reached the threshold. -/
theorem BulkOutput.flushIfNeeded_flush (out : BulkOutput)
    (h : (out.logs.length : Int) ≥ out.bulkSize) :
    out.flushIfNeeded
      = ({ out with logs := [] },
         some ((out.logs.map fun r =>
            out.formatter r.timestamp r.level r.message r.fields ++ ['\n']).flatten)) := by
  unfold BulkOutput.flushIfNeeded
  rw [if_pos h]

/-- Below the threshold, the flush check does nothing. -/
theorem BulkOutput.flushIfNeeded_noflush (out : BulkOutput)
    (h : ¬ ((out.logs.length : Int) ≥ out.bulkSize)) :
    out.flushIfNeeded = (out, none) := by
  unfold BulkOutput.flushIfNeeded
  rw [if_neg h]

/-- Filling an under-threshold batch up to exactly the threshold causes
one flush of the whole accumulated batch, in order. -/
theorem appendAll_fills (rs : List Row) :
    ∀ out : BulkOutput, rs ≠ [] →
    ((out.logs.length : Int) + rs.length = out.bulkSize) →
    (∀ r ∈ rs, andAllows out.filters r.level r.message r.fields = true) →
    BulkOutput.appendAll out rs =
      ({ out with logs := [] },
       [((out.logs ++ rs).map fun r =>
          out.formatter r.timestamp r.level r.message r.fields ++ ['\n']).flatten]) := by
  induction rs with
  | nil => intro out hne _ _; exact absurd rfl hne
  | cons r rest ih =>
    intro out _ hlen hallow
    have hr := hallow r (by simp)
    cases rest with
    | nil =>
      have hfull : (({ out with logs := out.logs ++ [r] } :
          BulkOutput).logs.length : Int) ≥ out.bulkSize := by
        simp only [List.length_append, List.length_cons, List.length_nil] at hlen ⊢
        push_cast at hlen ⊢
        omega
      simp only [BulkOutput.appendAll, BulkOutput.Append_eq out r hr,
        BulkOutput.flushIfNeeded_flush _ hfull]
      simp
    | cons r' rest' =>
      have hnot : ¬ ((({ out with logs := out.logs ++ [r] } :
          BulkOutput).logs.length : Int) ≥ out.bulkSize) := by
        simp only [List.length_append, List.length_cons, List.length_nil] at hlen ⊢
        push_cast at hlen ⊢
        omega
      have hrec := ih { out with logs := out.logs ++ [r] } (by simp)
        (by
          simp only [List.length_append, List.length_cons, List.length_nil] at hlen ⊢
          push_cast at hlen ⊢
          omega)
        (fun x hx => hallow x (by simp [hx]))
      rw [BulkOutput.appendAll, BulkOutput.Append_eq out r hr,
        BulkOutput.flushIfNeeded_noflush _ hnot]
      dsimp only
      rw [hrec]
      simp

/-- Claim C1: starting from an empty pending buffer with threshold
`n = rs.length > 0`, appending the `n` records of `rs` — all passing
the sink-local filter chain, each rendering to a newline-free line —
triggers exactly one flush: the buffer is reset to empty and a single
write is issued whose payload is the newline-terminated concatenation
of the formatted records in append order, so splitting it on newline
yields `n + 1` segments, the last one empty. -/
theorem bulk_batch_single_ordered_flush (out : BulkOutput) (rs : List Row)
    (hempty : out.logs = []) (hn : out.bulkSize = (rs.length : Int))
    (hpos : 0 < rs.length)
    (hallow : ∀ r ∈ rs, andAllows out.filters r.level r.message r.fields = true)
    (hline : ∀ r ∈ rs, '\n' ∉ out.formatter r.timestamp r.level r.message r.fields) :
    ∃ payload,
      BulkOutput.appendAll out rs = ({ out with logs := [] }, [payload]) ∧
      payload = (rs.map fun r =>
        out.formatter r.timestamp r.level r.message r.fields ++ ['\n']).flatten ∧
      splitOnChar '\n' payload
        = rs.map (fun r => out.formatter r.timestamp r.level r.message r.fields)
          ++ [[]] ∧
      (splitOnChar '\n' payload).length = rs.length + 1 ∧
      (splitOnChar '\n' payload).getLast? = some [] := by
  have hne : rs ≠ [] := by
    cases rs with
    | nil => simp at hpos
    | cons a l => simp
  have happ := appendAll_fills rs out hne (by rw [hempty, hn]; simp) hallow
  rw [hempty] at happ
  simp only [List.nil_append] at happ
  refine ⟨_, happ, rfl, ?_, ?_, ?_⟩
  · have := splitOnChar_flatten_lines '\n'
      (rs.map fun r => out.formatter r.timestamp r.level r.message r.fields)
      (by
        intro l hl
        simp only [List.mem_map] at hl
        obtain ⟨r, hr, rfl⟩ := hl
        exact hline r hr)
    rw [List.map_map] at this
    exact this
  · rw [show splitOnChar '\n' ((rs.map fun r =>
        out.formatter r.timestamp r.level r.message r.fields ++ ['\n']).flatten)
      = rs.map (fun r => out.formatter r.timestamp r.level r.message r.fields) ++ [[]]
      from ?_]
    · simp
    · have := splitOnChar_flatten_lines '\n'
        (rs.map fun r => out.formatter r.timestamp r.level r.message r.fields)
        (by
          intro l hl
          simp only [List.mem_map] at hl
          obtain ⟨r, hr, rfl⟩ := hl
          exact hline r hr)
      rw [List.map_map] at this
      exact this
  · rw [show splitOnChar '\n' ((rs.map fun r =>
        out.formatter r.timestamp r.level r.message r.fields ++ ['\n']).flatten)
      = rs.map (fun r => out.formatter r.timestamp r.level r.message r.fields) ++ [[]]
      from ?_]
    · simp
    · have := splitOnChar_flatten_lines '\n'
        (rs.map fun r => out.formatter r.timestamp r.level r.message r.fields)
        (by
          intro l hl
          simp only [List.mem_map] at hl
          obtain ⟨r, hr, rfl⟩ := hl
          exact hline r hr)
      rw [List.map_map] at this
      exact this

/-- Witness for `bulk_batch_single_ordered_flush`: threshold 2 and two
records through a message formatter. -/
theorem bulk_batch_single_ordered_flush_witness :
    ∃ payload,
      BulkOutput.appendAll
        { formatter := fun _ _ m _ => m.data, bulkSize := 2,
          logs := [], filters := [] }
        [⟨"info", 0, "a", []⟩, ⟨"info", 1, "b", []⟩]
        = ({ formatter := fun _ _ m _ => m.data, bulkSize := 2,
             logs := [], filters := [] }, [payload]) ∧
      payload = ([⟨"info", 0, "a", []⟩, ⟨"info", 1, "b", []⟩].map
        fun r : Row => r.message.data ++ ['\n']).flatten ∧
      splitOnChar '\n' payload
        = [⟨"info", 0, "a", []⟩, ⟨"info", 1, "b", []⟩].map
            (fun r : Row => r.message.data) ++ [[]] ∧
      (splitOnChar '\n' payload).length = 2 + 1 ∧
      (splitOnChar '\n' payload).getLast? = some [] :=
  bulk_batch_single_ordered_flush
    { formatter := fun _ _ m _ => m.data, bulkSize := 2,
      logs := [], filters := [] }
    [⟨"info", 0, "a", []⟩, ⟨"info", 1, "b", []⟩]
    rfl (by norm_num) (by norm_num)
    (by intro r _; rfl)
    (by
      intro r hr
      simp only [List.mem_cons, List.not_mem_nil, or_false] at hr
      rcases hr with h | h <;> subst h <;> decide)

/-- With only valid compiled patterns, the pattern loop never panics and
reports whether some pattern matches. -/
theorem allowedLoop_map_some (pats : List Pat) (message : String)
    (fields : List Field) :
    allowedLoop (pats.map some) message fields
      = some (pats.any fun r => patMatches r message fields) := by
  induction pats with
  | nil => rfl
  | cons r rest ih =>
    simp only [List.map_cons, allowedLoop, List.any_cons, patMatches]
    by_cases h1 : r message
    · simp [h1]
    · by_cases h2 : fields.any fun f => f.key == "error" && r f.fString
      · simp [h1, h2]
      · simp [h1, h2, ih, patMatches]

/-- With valid patterns followed by one nil compiled pattern, the loop
returns `true` on a match by a valid pattern and otherwise panics on the
nil pattern — it can never conclude `false`. -/
theorem allowedLoop_map_some_nil (pats : List Pat) (message : String)
    (fields : List Field) :
    allowedLoop (pats.map some ++ [none]) message fields
      = if pats.any (fun r => patMatches r message fields) then some true
        else none := by
  induction pats with
  | nil => rfl
  | cons r rest ih =>
    simp only [List.map_cons, List.cons_append, allowedLoop, List.any_cons, patMatches]
    by_cases h1 : r message
    · simp [h1]
    · by_cases h2 : fields.any fun f => f.key == "error" && r f.fString
      · simp [h1, h2]
      · simp [h1, h2, ih, patMatches]

/-- The existential reading of `List.any` over `patMatches`. -/
theorem any_patMatches_iff (pats : List Pat) (message : String)
    (fields : List Field) :
    (pats.any fun r => patMatches r message fields) = true
      ↔ ∃ r ∈ pats, r message = true
          ∨ ∃ f ∈ fields, f.key = "error" ∧ r f.fString = true := by
  simp [patMatches, List.any_eq_true]

/-- Claim C3: in the initial state (logging enabled, not terminated,
valid registered patterns, well-behaved backend), an error-level record
matching some registered allow pattern — against the message or any
field keyed `"error"` rendered as a string — is forwarded exactly once
through the backend's normal `Log` and leaves `hasErrors` false; a
non-matching error-level record sets `hasErrors`, disables logging, and
reports exactly two failure lines: the rendered line, then
`TEST_FAILED_ERROR`. -/
theorem testOutput_allowlist (o : TestOutput) (pats : List Pat) (now : Int)
    (message : String) (fields : List Field)
    (hpats : o.allowedErrorPatterns = pats.map some)
    (hdis : o.loggingDisabled = false)
    (hterm : o.testTerminated = false)
    (herr : o.hasErrors = false)
    (hnopanic : ∀ s, o.tb.errorPan s = none) :
    ((∃ r ∈ pats, r message = true
        ∨ ∃ f ∈ fields, f.key = "error" ∧ r f.fString = true) →
      o.Append now "error" message fields
        = some (o, [TBEvent.logLine (o.formatter now "error" message fields)])
      ∧ o.HasErrors = false) ∧
    ((¬ ∃ r ∈ pats, r message = true
        ∨ ∃ f ∈ fields, f.key = "error" ∧ r f.fString = true) →
      o.Append now "error" message fields
        = some ({ o with loggingDisabled := true, hasErrors := true },
                [TBEvent.errorLine (o.formatter now "error" message fields),
                 TBEvent.errorLine TEST_FAILED_ERROR])
      ∧ TestOutput.HasErrors { o with loggingDisabled := true, hasErrors := true }
          = true) := by
  constructor
  · intro hm
    have hany : (pats.any fun r => patMatches r message fields) = true :=
      (any_patMatches_iff pats message fields).2 hm
    refine ⟨?_, by simp [TestOutput.HasErrors, herr]⟩
    simp [TestOutput.Append, hdis, TestOutput.allowed, hpats,
      allowedLoop_map_some, hany]
  · intro hm
    have hany : (pats.any fun r => patMatches r message fields) = false := by
      rw [← any_patMatches_iff pats message fields] at hm
      exact Bool.eq_false_iff.mpr hm
    refine ⟨?_, by simp [TestOutput.HasErrors]⟩
    simp [TestOutput.Append, hdis, TestOutput.allowed, hpats,
      allowedLoop_map_some, hany, TestOutput.recordError, hterm, hnopanic]

/-- Witness for `testOutput_allowlist`: one pattern `"foo"`; an allowed
error `"foo"` and a disallowed error `"bar"`. -/
theorem testOutput_allowlist_witness :
    (TestOutput.Append
        ((NewTestOutput ⟨"t", fun _ => none, none⟩ (fun _ _ m _ => m)
          ).AllowErrorsMatching "foo" (Except.ok (fun s => s == "foo")))
        0 "error" "foo" []
      = some (((NewTestOutput ⟨"t", fun _ => none, none⟩ (fun _ _ m _ => m)
          ).AllowErrorsMatching "foo" (Except.ok (fun s => s == "foo"))),
          [TBEvent.logLine "foo"])) ∧
    (TestOutput.Append
        ((NewTestOutput ⟨"t", fun _ => none, none⟩ (fun _ _ m _ => m)
          ).AllowErrorsMatching "foo" (Except.ok (fun s => s == "foo")))
        0 "error" "bar" []
      = some ({ ((NewTestOutput ⟨"t", fun _ => none, none⟩ (fun _ _ m _ => m)
          ).AllowErrorsMatching "foo" (Except.ok (fun s => s == "foo")))
            with loggingDisabled := true, hasErrors := true },
          [TBEvent.errorLine "bar", TBEvent.errorLine TEST_FAILED_ERROR])) :=
  ⟨((testOutput_allowlist
      ((NewTestOutput ⟨"t", fun _ => none, none⟩ (fun _ _ m _ => m)
        ).AllowErrorsMatching "foo" (Except.ok (fun s => s == "foo")))
      [fun s => s == "foo"] 0 "foo" [] rfl rfl rfl rfl (fun _ => rfl)).1
      ⟨fun s => s == "foo", by simp, Or.inl rfl⟩).1,
   ((testOutput_allowlist
      ((NewTestOutput ⟨"t", fun _ => none, none⟩ (fun _ _ m _ => m)
        ).AllowErrorsMatching "foo" (Except.ok (fun s => s == "foo")))
      [fun s => s == "foo"] 0 "bar" [] rfl rfl rfl rfl (fun _ => rfl)).2
      (by
        rintro ⟨r, hr, hcase⟩
        simp only [List.mem_singleton] at hr
        subst hr
        rcases hcase with h | ⟨f, hf, _⟩
        · exact absurd h (by decide)
        · simp at hf)).1⟩

/-- Claim C4: once the sink is terminated, a disallowed error-level
record does not invoke the backend's per-line `Error` reporter; it
invokes the unconditional `Fail()` exactly once, prints the rendered
line tagged `POST_TERMINATED_ERROR`, and still sets `hasErrors`. -/
theorem testOutput_post_termination (o : TestOutput) (pats : List Pat) (now : Int)
    (message : String) (fields : List Field)
    (hpats : o.allowedErrorPatterns = pats.map some)
    (hdis : o.loggingDisabled = false)
    (hterm : o.testTerminated = true)
    (hfail : o.tb.failPan = none)
    (hm : ¬ ∃ r ∈ pats, r message = true
        ∨ ∃ f ∈ fields, f.key = "error" ∧ r f.fString = true) :
    ∃ events,
      o.Append now "error" message fields
        = some ({ o with loggingDisabled := true, hasErrors := true }, events) ∧
      events = [TBEvent.failCall,
        TBEvent.println POST_TERMINATED_ERROR o.tb.name none
          (o.formatter now "error" message fields)] ∧
      events.countP (fun e => match e with
        | TBEvent.failCall => true
        | _ => false) = 1 ∧
      (∀ line, TBEvent.errorLine line ∉ events) ∧
      TestOutput.hasErrors { o with loggingDisabled := true, hasErrors := true }
        = true := by
  have hany : (pats.any fun r => patMatches r message fields) = false := by
    rw [← any_patMatches_iff pats message fields] at hm
    exact Bool.eq_false_iff.mpr hm
  refine ⟨_, ?_, rfl, rfl, fun line => by simp, rfl⟩
  simp [TestOutput.Append, hdis, TestOutput.allowed, hpats,
    allowedLoop_map_some, hany, TestOutput.recordError, hterm, hfail]

/-- Witness for `testOutput_post_termination`: terminated sink, no
patterns, disallowed error `"bar"`. -/
theorem testOutput_post_termination_witness :
    ∃ events,
      TestOutput.Append
        ((NewTestOutput ⟨"t", fun _ => none, none⟩
            (fun _ _ m _ => m)).TestTerminated)
        0 "error" "bar" []
        = some ({ (NewTestOutput ⟨"t", fun _ => none, none⟩
              (fun _ _ m _ => m)).TestTerminated
            with loggingDisabled := true, hasErrors := true }, events) ∧
      events = [TBEvent.failCall,
        TBEvent.println POST_TERMINATED_ERROR "t" none "bar"] ∧
      events.countP (fun e => match e with
        | TBEvent.failCall => true
        | _ => false) = 1 ∧
      (∀ line, TBEvent.errorLine line ∉ events) ∧
      TestOutput.hasErrors { (NewTestOutput ⟨"t", fun _ => none, none⟩
            (fun _ _ m _ => m)).TestTerminated
          with loggingDisabled := true, hasErrors := true } = true :=
  testOutput_post_termination
    ((NewTestOutput ⟨"t", fun _ => none, none⟩ (fun _ _ m _ => m)).TestTerminated)
    [] 0 "bar" [] rfl rfl rfl rfl (by rintro ⟨r, hr, _⟩; simp at hr)

/-- Claim C8: a panic of the test-report backend while a failure is
being recorded — in the per-line `Error` reporter (either line) or in
the unconditional `Fail()` — is recovered inside `Append` (the call
still returns), and the rendered line is printed tagged
`TEST_RUNNER_PANIC_ERROR`. -/
theorem testOutput_backend_panic_recovered (o : TestOutput) (pats : List Pat)
    (now : Int) (message : String) (fields : List Field) (p : PanicObj)
    (hpats : o.allowedErrorPatterns = pats.map some)
    (hdis : o.loggingDisabled = false)
    (hm : ¬ ∃ r ∈ pats, r message = true
        ∨ ∃ f ∈ fields, f.key = "error" ∧ r f.fString = true) :
    (o.testTerminated = false →
      o.tb.errorPan (o.formatter now "error" message fields) = some p →
      ∃ st events, o.Append now "error" message fields = some (st, events) ∧
        TBEvent.println TEST_RUNNER_PANIC_ERROR o.tb.name (some p)
          (o.formatter now "error" message fields) ∈ events ∧
        st.hasErrors = true) ∧
    (o.testTerminated = false →
      o.tb.errorPan (o.formatter now "error" message fields) = none →
      o.tb.errorPan TEST_FAILED_ERROR = some p →
      ∃ st events, o.Append now "error" message fields = some (st, events) ∧
        TBEvent.println TEST_RUNNER_PANIC_ERROR o.tb.name (some p)
          (o.formatter now "error" message fields) ∈ events ∧
        st.hasErrors = true) ∧
    (o.testTerminated = true →
      o.tb.failPan = some p →
      ∃ st events, o.Append now "error" message fields = some (st, events) ∧
        TBEvent.println TEST_RUNNER_PANIC_ERROR o.tb.name (some p)
          (o.formatter now "error" message fields) ∈ events ∧
        st.hasErrors = true) := by
  have hany : (pats.any fun r => patMatches r message fields) = false := by
    rw [← any_patMatches_iff pats message fields] at hm
    exact Bool.eq_false_iff.mpr hm
  refine ⟨fun hterm hpan => ?_, fun hterm hpan1 hpan2 => ?_, fun hterm hpan => ?_⟩
  · have heq : o.Append now "error" message fields
        = some ({ o with loggingDisabled := true, hasErrors := true },
            [TBEvent.errorLine (o.formatter now "error" message fields),
             TBEvent.println TEST_RUNNER_PANIC_ERROR o.tb.name (some p)
               (o.formatter now "error" message fields)]) := by
      simp [TestOutput.Append, hdis, TestOutput.allowed, hpats,
        allowedLoop_map_some, hany, TestOutput.recordError, hterm, hpan]
    exact ⟨_, _, heq, by simp, rfl⟩
  · have heq : o.Append now "error" message fields
        = some ({ o with loggingDisabled := true, hasErrors := true },
            [TBEvent.errorLine (o.formatter now "error" message fields),
             TBEvent.errorLine TEST_FAILED_ERROR,
             TBEvent.println TEST_RUNNER_PANIC_ERROR o.tb.name (some p)
               (o.formatter now "error" message fields)]) := by
      simp [TestOutput.Append, hdis, TestOutput.allowed, hpats,
        allowedLoop_map_some, hany, TestOutput.recordError, hterm, hpan1, hpan2]
    exact ⟨_, _, heq, by simp, rfl⟩
  · have heq : o.Append now "error" message fields
        = some ({ o with loggingDisabled := true, hasErrors := true },
            [TBEvent.failCall,
             TBEvent.println TEST_RUNNER_PANIC_ERROR o.tb.name (some p)
               (o.formatter now "error" message fields)]) := by
      simp [TestOutput.Append, hdis, TestOutput.allowed, hpats,
        allowedLoop_map_some, hany, TestOutput.recordError, hterm, hpan]
    exact ⟨_, _, heq, by simp, rfl⟩

/-- Witness for `testOutput_backend_panic_recovered`: a backend whose
`Error` panics on every line, first scenario. -/
theorem testOutput_backend_panic_recovered_witness :
    ∃ st events,
      TestOutput.Append
        (NewTestOutput ⟨"t", fun _ => some (PanicObj.strObj "boom"), none⟩
          (fun _ _ m _ => m))
        0 "error" "bar" [] = some (st, events) ∧
      TBEvent.println TEST_RUNNER_PANIC_ERROR "t"
        (some (PanicObj.strObj "boom")) "bar" ∈ events ∧
      st.hasErrors = true :=
  (testOutput_backend_panic_recovered
    (NewTestOutput ⟨"t", fun _ => some (PanicObj.strObj "boom"), none⟩
      (fun _ _ m _ => m))
    [] 0 "bar" [] (PanicObj.strObj "boom") rfl rfl
    (by rintro ⟨r, hr, _⟩; simp at hr)).1 rfl rfl

/-- Trichotomy of field shapes: not nested, an aggregate with a
payload, or an aggregate with a nil payload. -/
theorem field_shape (f : Field) :
    f.isNested = false
    ∨ (∃ k sv sa iv uv b ev fs,
        f = Field.mk k .AggregateType sv sa iv uv b ev (some fs))
    ∨ (∃ k sv sa iv uv b ev,
        f = Field.mk k .AggregateType sv sa iv uv b ev none) := by
  rcases f with ⟨k, t, sv, sa, iv, uv, b, ev, n⟩
  cases t <;> first
    | (left; simp [Field.isNested, Field.type]; done)
    | (cases n with
       | some fs => right; left; exact ⟨k, sv, sa, iv, uv, b, ev, fs, rfl⟩
       | none => right; right; exact ⟨k, sv, sa, iv, uv, b, ev, rfl⟩)

/-- Unfolding `flattenParams` over a non-aggregate head. -/
theorem flattenParams_nonagg_cons (f : Field) (rest : List Field)
    (hf : f.isNested = false) :
    flattenParams (f :: rest) = (flattenParams rest).map (f :: ·) := by
  rcases f with ⟨k, t, sv, sa, iv, uv, b, ev, n⟩
  cases t <;> simp [Field.isNested, Field.type] at hf <;>
    (cases h : flattenParams rest <;> simp [flattenParams, h])

/-- Unfolding `flattenParams` over an aggregate head with a payload. -/
theorem flattenParams_agg_cons (k : String) (sv : String) (sa : List String)
    (iv : Int) (uv : Nat) (b : List Nat) (ev : Option String)
    (fs : List Field) (rest : List Field) :
    flattenParams (Field.mk k .AggregateType sv sa iv uv b ev (some fs) :: rest)
      = (flattenParams fs).bind fun a => (flattenParams rest).map (a ++ ·) := by
  cases h1 : flattenParams fs <;> cases h2 : flattenParams rest <;>
    simp [flattenParams, h1, h2]

/-- An aggregate head with a nil payload panics the whole flattening. -/
theorem flattenParams_agg_none (k : String) (sv : String) (sa : List String)
    (iv : Int) (uv : Nat) (b : List Nat) (ev : Option String)
    (rest : List Field) :
    flattenParams (Field.mk k .AggregateType sv sa iv uv b ev none :: rest)
      = none := by
  simp [flattenParams]

/-- `flattenParams` is a homomorphism for append: nested fields replace
their aggregate in place, preserving order. -/
theorem flattenParams_append (xs ys : List Field) :
    flattenParams (xs ++ ys)
      = (flattenParams xs).bind fun a => (flattenParams ys).map (a ++ ·) := by
  induction xs with
  | nil =>
    cases h : flattenParams ys <;> simp [flattenParams, h]
  | cons f xs ih =>
    rcases field_shape f with hf | ⟨k, sv, sa, iv, uv, b, ev, fs, rfl⟩
        | ⟨k, sv, sa, iv, uv, b, ev, rfl⟩
    · rw [List.cons_append, flattenParams_nonagg_cons f _ hf,
        flattenParams_nonagg_cons f _ hf, ih]
      cases h1 : flattenParams xs <;> cases h2 : flattenParams ys <;> simp
    · rw [List.cons_append, flattenParams_agg_cons, flattenParams_agg_cons, ih]
      cases h0 : flattenParams fs <;> cases h1 : flattenParams xs <;>
        cases h2 : flattenParams ys <;> simp
    · rw [List.cons_append, flattenParams_agg_none, flattenParams_agg_none]
      simp

/-- A successful flattening contains no aggregate-typed field. -/
theorem flattenParams_no_nested : ∀ (ps : List Field), ∀ res,
    flattenParams ps = some res → ∀ f ∈ res, f.isNested = false := by
  intro ps
  induction ps using flattenParams.induct with
  | case1 =>
    intro res h f hf
    simp [flattenParams] at h
    subst h
    simp at hf
  | case2 k sv sa iv uv b ev nf rest hnf ih =>
    intro res h
    rw [flattenParams_agg_cons, hnf] at h
    simp at h
  | case3 k sv sa iv uv b ev nf rest fr hnf hrest ih1 ih2 =>
    intro res h
    rw [flattenParams_agg_cons, hnf, hrest] at h
    simp at h
  | case4 k sv sa iv uv b ev nf rest fn hfn fr hfr ih1 ih2 =>
    intro res h
    rw [flattenParams_agg_cons, hfn, hfr] at h
    simp at h
    subst h
    intro f hf
    rcases List.mem_append.1 hf with hf | hf
    · exact ih1 fn hfn f hf
    · exact ih2 fr hfr f hf
  | case5 k sv sa iv uv b ev tail =>
    intro res h
    rw [flattenParams_agg_none] at h
    simp at h
  | case6 f rest hne1 hne2 hrest ih =>
    intro res h
    have hf : f.isNested = false := by
      rcases field_shape f with hf | ⟨k, sv, sa, iv, uv, b, ev, fs, rfl⟩
          | ⟨k, sv, sa, iv, uv, b, ev, rfl⟩
      · exact hf
      · exact absurd rfl (by intro hh; exact hne1 _ _ _ _ _ _ _ _ hh)
      · exact absurd rfl (by intro hh; exact hne2 _ _ _ _ _ _ _ hh)
    rw [flattenParams_nonagg_cons f _ hf, hrest] at h
    simp at h
  | case7 f rest hne1 hne2 fr hfr ih =>
    intro res h
    have hf : f.isNested = false := by
      rcases field_shape f with hf | ⟨k, sv, sa, iv, uv, b, ev, fs, rfl⟩
          | ⟨k, sv, sa, iv, uv, b, ev, rfl⟩
      · exact hf
      · exact absurd rfl (by intro hh; exact hne1 _ _ _ _ _ _ _ _ hh)
      · exact absurd rfl (by intro hh; exact hne2 _ _ _ _ _ _ _ hh)
    rw [flattenParams_nonagg_cons f _ hf, hfr] at h
    simp at h
    subst h
    intro g hg
    rcases List.mem_cons.1 hg with rfl | hg
    · exact hf
    · exact ih fr hfr g hg

/-- An aggregate field with a nil nested payload anywhere in the list
makes the whole flattening panic. -/
theorem flattenParams_none_of_bad (ps : List Field) (f : Field) (hf : f ∈ ps)
    (hn : f.isNested = true) (hb : f.nested = none) :
    flattenParams ps = none := by
  obtain ⟨s, t, rfl⟩ := List.append_of_mem hf
  rcases field_shape f with hshape | ⟨k, sv, sa, iv, uv, b, ev, fs, rfl⟩
      | ⟨k, sv, sa, iv, uv, b, ev, rfl⟩
  · rw [hshape] at hn
    exact absurd hn (by simp)
  · simp [Field.nested] at hb
  · rw [flattenParams_append, flattenParams_agg_none]
    cases hs : flattenParams s <;> simp

/-- Mapping an `Option`-valued function that succeeds pointwise. -/
theorem mapM_option_eq_map {α β : Type} (l : List α) (f : α → Option β)
    (g : α → β) (h : ∀ a ∈ l, f a = some (g a)) :
    l.mapM f = some (l.map g) := by
  induction l with
  | nil => rfl
  | cons a t ih =>
    rw [List.mapM_cons, h a (by simp), ih (fun x hx => h x (by simp [hx]))]
    rfl

/-- Every element of a successful `Option`-`mapM` output is produced by
some input element. -/
theorem mapM_option_mem {α β : Type} (l : List α) (f : α → Option β) :
    ∀ bs, l.mapM f = some bs → ∀ b ∈ bs, ∃ a ∈ l, f a = some b := by
  induction l with
  | nil =>
    intro bs hm b hb
    rw [List.mapM_nil] at hm
    simp at hm
    subst hm
    simp at hb
  | cons a t ih =>
    intro bs hm b hb
    rw [List.mapM_cons] at hm
    cases hfa : f a with
    | none => rw [hfa] at hm; simp at hm
    | some b0 =>
      rw [hfa] at hm
      cases hmt : t.mapM f with
      | none => rw [hmt] at hm; simp at hm
      | some bs' =>
        rw [hmt] at hm
        simp at hm
        subst hm
        rcases List.mem_cons.1 hb with rfl | hb
        · exact ⟨a, by simp, hfa⟩
        · obtain ⟨x, hx, hfx⟩ := ih bs' hmt b hb
          exact ⟨x, by simp [hx], hfx⟩

/-- Flattening a list of singleton lists. -/
theorem flatten_map_singleton {α β : Type} (l : List α) (g : α → β) :
    (l.map fun x => [g x]).flatten = l.map g := by
  induction l with
  | nil => rfl
  | cons a t ih => simp [ih]

/-- With error reporting disabled, a sink invocation produces exactly
its own delivery event: all reported errors are dropped. -/
theorem appendTo_false_eq (out : SinkSpec)
    (llef : String → Option (List LogEvent))
    (level message : String) (enriched : List Field) :
    BasicLogger.appendTo out false llef level message enriched
      = some [LogEvent.mk false level message enriched] := by
  unfold BasicLogger.appendTo
  dsimp only
  rw [mapM_option_eq_map _ _ (fun _ => ([] : List LogEvent))
    (fun e _ => by simp)]
  simp

/-- With error reporting enabled and every re-entrant log call
succeeding, a sink invocation produces its own delivery event followed
by the secondary events of each reported error in order. -/
theorem appendTo_true_eq (out : SinkSpec)
    (llef : String → Option (List LogEvent)) (gsec : String → List LogEvent)
    (level message : String) (enriched : List Field)
    (hsec : ∀ err ∈ out.errList level message enriched,
      llef err = some (gsec err)) :
    BasicLogger.appendTo out true llef level message enriched
      = some (LogEvent.mk true level message enriched ::
          ((out.errList level message enriched).map gsec).flatten) := by
  unfold BasicLogger.appendTo
  dsimp only
  rw [mapM_option_eq_map _ _ gsec (fun e he => by simpa using hsec e he)]

/-- One delivery pass with error reporting disabled emits one
disabled-flag event per output. -/
theorem logOnce_false_eq (b : BasicLogger) (fn src : String)
    (llef : String → Option (List LogEvent)) (level message : String)
    (ps : List Field) (a : List Field)
    (hfl : flattenParams (Field.function fn :: Field.source src ::
      (b.tags ++ ps)) = some a)
    (hfilters : b.filters = []) :
    BasicLogger.logOnce b fn src llef false level message ps
      = some (b.outputs.map fun _ => LogEvent.mk false level message a) := by
  unfold BasicLogger.logOnce
  rw [hfl]
  dsimp only
  rw [hfilters]
  simp only [List.all_nil, if_true]
  rw [mapM_option_eq_map _ _
    (fun _ => [LogEvent.mk false level message a])
    (fun out _ => appendTo_false_eq out _ level message a)]
  simp [flatten_map_singleton]

/-- A `logLoggingError` re-entry (fuel 0) delivers one disabled-flag
event to every output. -/
theorem logAux_zero_eq (b : BasicLogger) (fn src level message : String)
    (ps : List Field) (a : List Field)
    (hfl : flattenParams (Field.function fn :: Field.source src ::
      (b.tags ++ ps)) = some a)
    (hfilters : b.filters = []) :
    b.logAux fn src 0 level message ps
      = some (b.outputs.map fun _ => LogEvent.mk false level message a) := by
  rw [BasicLogger.logAux]
  exact logOnce_false_eq b fn src _ level message ps a hfl hfilters

/-- A public log call (fuel 1) with no logger-level filters delivers
one enabled-flag event per output, each followed by the secondary
events its reported errors generate on every output. -/
theorem logAux_one_eq (b : BasicLogger) (fn src level message : String)
    (ps : List Field) (en a : List Field)
    (hfl : flattenParams (Field.function fn :: Field.source src ::
      (b.tags ++ ps)) = some en)
    (hfl0 : flattenParams (Field.function fn :: Field.source src ::
      (b.tags ++ [])) = some a)
    (hfilters : b.filters = []) :
    b.logAux fn src 1 level message ps
      = some ((b.outputs.map fun out =>
          LogEvent.mk true level message en ::
            ((out.errList level message en).map fun err =>
              b.outputs.map fun _ => LogEvent.mk false "error"
                ("failed to append log to output: " ++ err) a).flatten).flatten) := by
  rw [BasicLogger.logAux]
  unfold BasicLogger.logOnce
  rw [hfl]
  dsimp only
  rw [hfilters]
  simp only [List.all_nil, if_true]
  rw [mapM_option_eq_map _ _
    (fun out => LogEvent.mk true level message en ::
      ((out.errList level message en).map fun err =>
        b.outputs.map fun _ => LogEvent.mk false "error"
          ("failed to append log to output: " ++ err) a).flatten)
    (fun out _ => appendTo_true_eq out _
      (fun err => b.outputs.map fun _ => LogEvent.mk false "error"
        ("failed to append log to output: " ++ err) a)
      level message en
      (fun err _ => logAux_zero_eq b fn src "error"
        ("failed to append log to output: " ++ err) [] a hfl0 hfilters))]

/-- Every event a sink invocation emits is either the delivery itself
(with the enriched fields) or comes from a re-entrant log call. -/
theorem appendTo_params (out : SinkSpec) (lle : Bool)
    (llef : String → Option (List LogEvent))
    (level message : String) (enriched : List Field) (events : List LogEvent)
    (h : BasicLogger.appendTo out lle llef level message enriched
      = some events) :
    ∀ e ∈ events, e.params = enriched
      ∨ ∃ err evs, llef err = some evs ∧ e ∈ evs := by
  unfold BasicLogger.appendTo at h
  dsimp only at h
  cases hm : (out.errList level message enriched).mapM
      (fun e => if lle then llef e else some []) with
  | none => rw [hm] at h; exact absurd h (by simp)
  | some groups =>
    rw [hm] at h
    simp only [Option.some.injEq] at h
    subst h
    intro e he
    rcases List.mem_cons.1 he with rfl | he
    · left; rfl
    · obtain ⟨g, hg, heg⟩ := List.mem_flatten.1 he
      obtain ⟨err, herr, hfe⟩ := mapM_option_mem _ _ groups hm g hg
      by_cases hlle : lle
      · right
        refine ⟨err, g, ?_, heg⟩
        rw [if_pos hlle] at hfe
        exact hfe
      · rw [if_neg hlle] at hfe
        simp only [Option.some.injEq] at hfe
        subst hfe
        simp at heg

/-- One delivery pass emits only events with flattened fields, provided
every re-entrant log call does so too. -/
theorem logOnce_no_nested (b : BasicLogger) (fn src : String)
    (llef : String → Option (List LogEvent)) (lle : Bool)
    (level message : String) (ps : List Field) (events : List LogEvent)
    (hrec : ∀ err evs, llef err = some evs →
      ∀ e ∈ evs, ∀ f ∈ e.params, f.isNested = false)
    (h : BasicLogger.logOnce b fn src llef lle level message ps
      = some events) :
    ∀ e ∈ events, ∀ f ∈ e.params, f.isNested = false := by
  intro e he f hf
  unfold BasicLogger.logOnce at h
  cases hfl : flattenParams (Field.function fn :: Field.source src ::
      (b.tags ++ ps)) with
  | none => rw [hfl] at h; exact absurd h (by simp)
  | some enriched =>
    rw [hfl] at h
    dsimp only at h
    by_cases hflt : b.filters.all (fun fl => fl level message enriched) = true
    · rw [if_pos hflt] at h
      cases hm : b.outputs.mapM (fun out =>
          BasicLogger.appendTo out lle llef level message enriched) with
      | none => rw [hm] at h; exact absurd h (by simp)
      | some groups =>
        rw [hm] at h
        simp only [Option.some.injEq] at h
        subst h
        obtain ⟨g, hg, heg⟩ := List.mem_flatten.1 he
        obtain ⟨out, hout, hfe⟩ := mapM_option_mem _ _ groups hm g hg
        rcases appendTo_params out _ _ level message enriched g hfe e heg with
          hp | ⟨err, evs, hevs, hee⟩
        · rw [hp] at hf
          exact flattenParams_no_nested _ enriched hfl f hf
        · exact hrec err evs hevs e hee f hf
    · rw [if_neg hflt] at h
      simp only [Option.some.injEq] at h
      subst h
      simp at he

/-- Every delivered event carries only flattened (non-aggregate)
fields, at any re-entrancy depth. -/
theorem logAux_no_nested : ∀ (fuel : Nat) (b : BasicLogger)
    (fn src level message : String) (ps : List Field)
    (events : List LogEvent),
    b.logAux fn src fuel level message ps = some events →
    ∀ e ∈ events, ∀ f ∈ e.params, f.isNested = false := by
  intro fuel
  induction fuel with
  | zero =>
    intro b fn src level message ps events h
    rw [BasicLogger.logAux] at h
    exact logOnce_no_nested b fn src _ false level message ps events
      (fun err evs hevs => by
        simp only [Option.some.injEq] at hevs
        subst hevs
        simp) h
  | succ n ih =>
    intro b fn src level message ps events h
    rw [BasicLogger.logAux] at h
    exact logOnce_no_nested b fn src _ true level message ps events
      (fun err evs hevs => ih b fn src "error"
        ("failed to append log to output: " ++ err) [] evs hevs) h

/-- A flattening panic reaching `logOnce` aborts the call before any
delivery. -/
theorem logOnce_flatten_none (b : BasicLogger) (fn src : String)
    (llef : String → Option (List LogEvent)) (lle : Bool)
    (level message : String) (ps : List Field)
    (hfl : flattenParams (Field.function fn :: Field.source src ::
      (b.tags ++ ps)) = none) :
    BasicLogger.logOnce b fn src llef lle level message ps = none := by
  unfold BasicLogger.logOnce
  rw [hfl]

/-- Claim C5: a panic raised by a sink's `Append` during a log call is
recovered and routed through the error callback: the call returns
normally to the logging caller and a secondary
"failed to append log to output: …" event is logged with error
reporting disabled (so an always-failing sink cannot recurse). -/
theorem sink_panic_contained (b : BasicLogger)
    (function source level message : String)
    (params enriched : List Field) (out : SinkSpec) (p : PanicObj)
    (hfl : flattenParams (Field.function function :: Field.source source ::
      (b.tags ++ params)) = some enriched)
    (hfilters : b.filters = [])
    (hout : out ∈ b.outputs)
    (hpan : out.pan level message enriched = some p) :
    ∃ events, b.Log function source level message params = some events ∧
      ∃ e ∈ events, e.reportErrors = false ∧ e.level = "error" ∧
        e.message = "failed to append log to output: " ++ panicToErrMsg p := by
  obtain ⟨a, hpre⟩ : ∃ a, flattenParams (Field.function function ::
      Field.source source :: b.tags) = some a := by
    have h1 : Field.function function :: Field.source source ::
        (b.tags ++ params)
        = (Field.function function :: Field.source source :: b.tags)
          ++ params := by simp
    have h2 := hfl
    rw [h1, flattenParams_append] at h2
    cases hx : flattenParams (Field.function function ::
        Field.source source :: b.tags) with
    | none => rw [hx] at h2; simp at h2
    | some a => exact ⟨a, rfl⟩
  have hfl0 : flattenParams (Field.function function :: Field.source source ::
      (b.tags ++ [])) = some a := by
    rw [List.append_nil]
    exact hpre
  have heq := logAux_one_eq b function source level message params enriched a
    hfl hfl0 hfilters
  refine ⟨_, by unfold BasicLogger.Log; exact heq, ?_⟩
  refine ⟨LogEvent.mk false "error"
    ("failed to append log to output: " ++ panicToErrMsg p) a,
    ?_, rfl, rfl, rfl⟩
  apply List.mem_flatten.2
  refine ⟨_, List.mem_map.2 ⟨out, hout, rfl⟩, ?_⟩
  apply List.mem_cons.2
  right
  apply List.mem_flatten.2
  refine ⟨b.outputs.map fun _ => LogEvent.mk false "error"
      ("failed to append log to output: " ++ panicToErrMsg p) a,
    List.mem_map.2 ⟨panicToErrMsg p, ?_, rfl⟩,
    List.mem_map.2 ⟨out, hout, rfl⟩⟩
  unfold SinkSpec.errList
  rw [hpan]
  simp

/-- Witness for `sink_panic_contained`: one sink whose `Append` always
panics with the string `"boom"`. -/
theorem sink_panic_contained_witness :
    ∃ events,
      BasicLogger.Log ⟨[⟨fun _ _ _ => [], fun _ _ _ =>
          some (PanicObj.strObj "boom")⟩], [], []⟩
        "f" "s" "info" "m" [] = some events ∧
      ∃ e ∈ events, e.reportErrors = false ∧ e.level = "error" ∧
        e.message = "failed to append log to output: "
          ++ panicToErrMsg (PanicObj.strObj "boom") :=
  sink_panic_contained
    ⟨[⟨fun _ _ _ => [], fun _ _ _ => some (PanicObj.strObj "boom")⟩], [], []⟩
    "f" "s" "info" "m" [] [Field.function "f", Field.source "s"]
    ⟨fun _ _ _ => [], fun _ _ _ => some (PanicObj.strObj "boom")⟩
    (PanicObj.strObj "boom")
    (by
      rw [show Field.function "f" :: Field.source "s" ::
          (([] : List Field) ++ ([] : List Field))
          = [Field.function "f", Field.source "s"] by simp]
      rw [flattenParams_nonagg_cons (Field.function "f") _ rfl,
        flattenParams_nonagg_cons (Field.source "s") _ rfl]
      simp [flattenParams])
    rfl (by simp) rfl

/-- Claim C6: every field sequence handed to a sink is aggregate-free —
flattening recursively replaces each aggregate by its nested fields in
place, preserving order (it maps append to append and an aggregate head
to its flattened payload before the rest) — and an aggregate whose
nested payload is not a field sequence makes the log call panic instead
of delivering. -/
theorem aggregate_fields_flattened :
    (∀ (b : BasicLogger) (fuel : Nat) (fn src level message : String)
        (params : List Field) (events : List LogEvent),
        b.logAux fn src fuel level message params = some events →
        ∀ e ∈ events, ∀ f ∈ e.params, f.isNested = false) ∧
    (∀ xs ys : List Field, flattenParams (xs ++ ys)
        = (flattenParams xs).bind fun a => (flattenParams ys).map (a ++ ·)) ∧
    (∀ (k : String) (fs rest : List Field),
        flattenParams (Field.aggregate k fs :: rest)
          = (flattenParams fs).bind fun a =>
              (flattenParams rest).map (a ++ ·)) ∧
    (∀ (b : BasicLogger) (fuel : Nat) (fn src level message : String)
        (params : List Field) (f : Field),
        f ∈ params → f.isNested = true → f.nested = none →
        b.logAux fn src fuel level message params = none) := by
  refine ⟨fun b fuel => logAux_no_nested fuel b, flattenParams_append,
    fun k fs rest => flattenParams_agg_cons k "" [] 0 0 [] none fs rest,
    fun b fuel fn src level message params f hmem hn hb => ?_⟩
  have hbad : flattenParams (Field.function fn :: Field.source src ::
      (b.tags ++ params)) = none :=
    flattenParams_none_of_bad _ f
      (by simp [List.mem_append, hmem]) hn hb
  cases fuel with
  | zero =>
    rw [BasicLogger.logAux]
    exact logOnce_flatten_none b fn src _ false level message params hbad
  | succ n =>
    rw [BasicLogger.logAux]
    exact logOnce_flatten_none b fn src _ true level message params hbad

/-- Witness for `aggregate_fields_flattened`: a log call whose
parameter list holds an aggregate field — the delivered event carries
its flattened payload only — and one whose aggregate has a nil payload
and panics. -/
theorem aggregate_fields_flattened_witness :
    (∀ e ∈ [LogEvent.mk true "info" "m"
        [Field.function "f", Field.source "s", Field.string "k" "v"]],
      ∀ f ∈ LogEvent.params e, f.isNested = false) ∧
    BasicLogger.logAux ⟨[⟨fun _ _ _ => [], fun _ _ _ => none⟩], [], []⟩
      "f" "s" 1 "info" "m"
      [Field.mk "bad" .AggregateType "" [] 0 0 [] none none] = none := by
  constructor
  · have hfl : flattenParams (Field.function "f" :: Field.source "s" ::
        (([] : List Field) ++ [Field.aggregate "agg" [Field.string "k" "v"]]))
        = some [Field.function "f", Field.source "s", Field.string "k" "v"] := by
      rw [show Field.function "f" :: Field.source "s" ::
          (([] : List Field) ++ [Field.aggregate "agg" [Field.string "k" "v"]])
          = [Field.function "f", Field.source "s",
             Field.aggregate "agg" [Field.string "k" "v"]] by simp]
      rw [flattenParams_nonagg_cons (Field.function "f") _ rfl,
        flattenParams_nonagg_cons (Field.source "s") _ rfl]
      rw [show Field.aggregate "agg" [Field.string "k" "v"]
          = Field.mk "agg" .AggregateType "" [] 0 0 [] none
              (some [Field.string "k" "v"]) from rfl]
      rw [flattenParams_agg_cons, flattenParams_nonagg_cons
        (Field.string "k" "v") _ rfl]
      simp [flattenParams]
    have hfl0 : flattenParams (Field.function "f" :: Field.source "s" ::
        (([] : List Field) ++ ([] : List Field)))
        = some [Field.function "f", Field.source "s"] := by
      rw [show Field.function "f" :: Field.source "s" ::
          (([] : List Field) ++ ([] : List Field))
          = [Field.function "f", Field.source "s"] by simp]
      rw [flattenParams_nonagg_cons (Field.function "f") _ rfl,
        flattenParams_nonagg_cons (Field.source "s") _ rfl]
      simp [flattenParams]
    have heq : BasicLogger.logAux
        ⟨[⟨fun _ _ _ => [], fun _ _ _ => none⟩], [], []⟩ "f" "s" 1 "info" "m"
        [Field.aggregate "agg" [Field.string "k" "v"]]
        = some [LogEvent.mk true "info" "m"
            [Field.function "f", Field.source "s", Field.string "k" "v"]] := by
      rw [logAux_one_eq _ "f" "s" "info" "m" _ _ _ hfl hfl0 rfl]
      rfl
    exact aggregate_fields_flattened.1
      ⟨[⟨fun _ _ _ => [], fun _ _ _ => none⟩], [], []⟩ 1 "f" "s" "info" "m"
      [Field.aggregate "agg" [Field.string "k" "v"]] _ heq
  · exact aggregate_fields_flattened.2.2.2
      ⟨[⟨fun _ _ _ => [], fun _ _ _ => none⟩], [], []⟩ 1 "f" "s" "info" "m"
      [Field.mk "bad" .AggregateType "" [] 0 0 [] none none]
      (Field.mk "bad" .AggregateType "" [] 0 0 [] none none)
      (by simp) rfl rfl

/-- Counterexample to claim C10 as stated: after `AllowErrorsMatching`
with an invalid pattern (its compilation failed), an error-level
`Append` whose message matches an earlier valid pattern does NOT panic:
it returns normally, classified as allowed. -/
theorem allowErrorsMatching_invalid_counterexample :
    TestOutput.Append
      (((NewTestOutput ⟨"t", fun _ => none, none⟩ (fun _ _ m _ => m)
        ).AllowErrorsMatching "foo" (Except.ok (fun s => s == "foo"))
        ).AllowErrorsMatching "(" (Except.error "missing closing paren"))
      0 "error" "foo" []
      = some ((((NewTestOutput ⟨"t", fun _ => none, none⟩ (fun _ _ m _ => m)
          ).AllowErrorsMatching "foo" (Except.ok (fun s => s == "foo"))
          ).AllowErrorsMatching "(" (Except.error "missing closing paren")),
        [TBEvent.logLine "foo"]) := rfl

/-- Claim C10 as amended: `AllowErrorsMatching` with an invalid regular
expression silently discards the compilation error and appends a nil
compiled pattern (while still recording the pattern string); a
subsequent error-level `Append` with logging enabled then panics while
matching against the nil pattern exactly when no earlier (valid)
registered pattern matches the message or an error-keyed field; when an
earlier pattern matches, the record is classified as allowed — it can
never be classified as disallowed. -/
theorem allowErrorsMatching_invalid_amended (o : TestOutput)
    (pattern compileErr : String) :
    (o.AllowErrorsMatching pattern (Except.error compileErr)).allowedErrorPatterns
      = o.allowedErrorPatterns ++ [none] ∧
    (o.AllowErrorsMatching pattern (Except.error compileErr)).allowedErrors
      = o.allowedErrors ++ [pattern] ∧
    ∀ (pats : List Pat) (now : Int) (message : String) (fields : List Field),
      o.allowedErrorPatterns = pats.map some →
      o.loggingDisabled = false →
      (((o.AllowErrorsMatching pattern (Except.error compileErr)).Append
          now "error" message fields = none)
        ↔ ¬ ∃ r ∈ pats, r message = true
            ∨ ∃ f ∈ fields, f.key = "error" ∧ r f.fString = true) ∧
      ((∃ r ∈ pats, r message = true
          ∨ ∃ f ∈ fields, f.key = "error" ∧ r f.fString = true) →
        (o.AllowErrorsMatching pattern (Except.error compileErr)).Append
            now "error" message fields
          = some (o.AllowErrorsMatching pattern (Except.error compileErr),
              [TBEvent.logLine (o.formatter now "error" message fields)])) := by
  refine ⟨rfl, rfl, fun pats now message fields hpats hdis => ?_⟩
  cases hc : pats.any fun r => patMatches r message fields with
  | true =>
    have hsome : (o.AllowErrorsMatching pattern (Except.error compileErr)).Append
        now "error" message fields
        = some (o.AllowErrorsMatching pattern (Except.error compileErr),
            [TBEvent.logLine (o.formatter now "error" message fields)]) := by
      simp [TestOutput.Append, TestOutput.AllowErrorsMatching, hdis,
        TestOutput.allowed, hpats, Except.toOption, allowedLoop_map_some_nil, hc]
    constructor
    · rw [hsome]
      simp only [reduceCtorEq, false_iff, not_not]
      exact (any_patMatches_iff pats message fields).1 hc
    · intro _
      exact hsome
  | false =>
    have hnone : (o.AllowErrorsMatching pattern (Except.error compileErr)).Append
        now "error" message fields = none := by
      simp [TestOutput.Append, TestOutput.AllowErrorsMatching, hdis,
        TestOutput.allowed, hpats, Except.toOption, allowedLoop_map_some_nil, hc]
    constructor
    · rw [hnone]
      simp only [true_iff]
      intro hm
      rw [← any_patMatches_iff pats message fields] at hm
      exact absurd hc (by simp [hm])
    · intro hm
      rw [← any_patMatches_iff pats message fields] at hm
      exact absurd hc (by simp [hm])

/-- Witness for `allowErrorsMatching_invalid_amended`: with no valid
pattern registered, the error-level `Append` after an invalid
`AllowErrorsMatching` reaches the nil pattern and panics. -/
theorem allowErrorsMatching_invalid_amended_witness :
    TestOutput.Append
      ((NewTestOutput ⟨"t", fun _ => none, none⟩ (fun _ _ m _ => m)
        ).AllowErrorsMatching "(" (Except.error "missing closing paren"))
      0 "error" "bar" [] = none :=
  ((allowErrorsMatching_invalid_amended
      (NewTestOutput ⟨"t", fun _ => none, none⟩ (fun _ _ m _ => m))
      "(" "missing closing paren").2.2 [] 0 "bar" [] rfl rfl).1.mpr
    (by rintro ⟨r, hr, _⟩; simp at hr)

end Scribe
